import Mathlib

/-!
Verification of the file-tunnel resumable-upload engine.

Shallow embedding of the chunk/file state machine, the concurrency
scheduler and the queue admission logic of `src/hooks/useUploader.ts` and
`src/utils/uploaderUtils.ts` (the latter appearing in `src/unnamed/part_000`).
JS numbers that are used as integers are modelled as `Nat`; progress
fractions are modelled as `ℚ`.  An `XMLHttpRequest` is modelled by the two
fields the engine reads (`readyState`, `status`); `xhr === null` becomes
`Option`.  Methods that mutate their receiver are modelled as functions
returning the updated value, threading the receiver exactly where the
source threads the mutated object.
-/

namespace FileTunnel

/-- Chunk status, the four values returned by `ResumableChunk.status`. -/
inductive Status where
  | pending
  | uploading
  | success
  | error
deriving DecidableEq, Repr

/-- The two fields of an `XMLHttpRequest` that `status()` inspects:
`readyState` (4 = resolved) and the HTTP `status` code (0 while unsent). -/
structure Xhr where
  readyState : Nat
  httpStatus : Nat
deriving DecidableEq, Repr

/-- State of one `ResumableChunk` (the record built by
`createResumableChunk`, src/unnamed/part_000 lines 138-149). -/
structure Chunk where
  offset : Nat
  startByte : Nat
  endByte : Nat
  tested : Bool
  retries : Nat
  pendingRetry : Bool
  preprocessState : Nat
  markComplete : Bool
  loaded : Nat
  xhr : Option Xhr
deriving DecidableEq, Repr

/-- The configuration options consulted by the chunk/file/scheduler logic
(`defaultOptions` plus `getOpt`, src/unnamed/part_000 lines 4-42).
Function-valued options are modelled by a flag telling whether they are
configured. -/
structure Opts where
  chunkSize : Nat
  forceChunkSize : Bool
  simultaneousUploads : Nat
  prioritizeFirstAndLastChunk : Bool
  testChunks : Bool
  maxChunkRetries : Nat
  chunkRetryInterval : Option Nat
  permanentErrors : List Nat
  preprocessConfigured : Bool
  preprocessFileConfigured : Bool
deriving DecidableEq, Repr

/-- The default options of src/unnamed/part_000 lines 4-42 (fields used
by the embedded logic). -/
def defaultOptions : Opts :=
  { chunkSize := 1048576
    forceChunkSize := false
    simultaneousUploads := 3
    prioritizeFirstAndLastChunk := false
    testChunks := true
    maxChunkRetries := 100
    chunkRetryInterval := none
    permanentErrors := [400, 401, 403, 404, 409, 415, 500, 501]
    preprocessConfigured := false
    preprocessFileConfigured := false }

/-- `ResumableChunk.abort` (src/unnamed/part_000 lines 198-201): cancels
and clears the in-flight handle. -/
def Chunk.abort (c : Chunk) : Chunk := { c with xhr := none }

/-- `ResumableChunk.status` (src/unnamed/part_000 lines 151-173).
The source mutates `this` in one branch (the transient-failure branch
calls `this.abort()`), so the embedding returns the updated chunk next
to the status value. -/
def Chunk.status (o : Opts) (c : Chunk) : Status × Chunk :=
  if c.pendingRetry then (.uploading, c)
  else if c.markComplete then (.success, c)
  else
    match c.xhr with
    | none => (.pending, c)
    | some x =>
      if x.readyState < 4 then (.uploading, c)
      else if x.httpStatus = 200 ∨ x.httpStatus = 201 then (.success, c)
      else if x.httpStatus ∈ o.permanentErrors ∨ o.maxChunkRetries ≤ c.retries then
        (.error, c)
      else (.pending, c.abort)

/-- The status value alone (first component of `Chunk.status`). -/
def Chunk.reportedStatus (o : Opts) (c : Chunk) : Status := (c.status o).1

/-- The chunk as left behind by a `status()` call (second component). -/
def Chunk.afterStatus (o : Opts) (c : Chunk) : Chunk := (c.status o).2

/-- Condition under which `status()` takes its final branch: the handle is
resolved with a transient failure (not a success code, not a permanent
error code, retries not exhausted) and no earlier branch applied.  In this
branch the source releases the handle (`this.abort()`). -/
def Chunk.transientResolved (o : Opts) (c : Chunk) : Prop :=
  c.pendingRetry = false ∧ c.markComplete = false ∧
    ∃ x, c.xhr = some x ∧ 4 ≤ x.readyState ∧
      ¬(x.httpStatus = 200 ∨ x.httpStatus = 201) ∧
      ¬(x.httpStatus ∈ o.permanentErrors ∨ o.maxChunkRetries ≤ c.retries)

instance (o : Opts) (c : Chunk) : Decidable (c.transientResolved o) := by
  unfold Chunk.transientResolved
  exact inferInstance

/-- The status precedence exactly as the specification states it
(spec §3, claim C3): a pure function of the chunk's attributes.
`readyState < 4` is "the in-flight handle is not yet resolved". -/
def statusSpec (o : Opts) (c : Chunk) : Status :=
  if c.pendingRetry then .uploading
  else if c.markComplete then .success
  else
    match c.xhr with
    | none => .pending
    | some x =>
      if x.readyState < 4 then .uploading
      else if x.httpStatus = 200 ∨ x.httpStatus = 201 then .success
      else if x.httpStatus ∈ o.permanentErrors ∨ o.maxChunkRetries ≤ c.retries then .error
      else .pending

/-- The chunk record freshly built by `createResumableChunk`
(src/unnamed/part_000 lines 125-149): `startByte = offset * chunkSize`,
`endByte = Math.min(size, (offset + 1) * chunkSize)`.  There is no
extension of the final chunk to the end of the file. -/
def createResumableChunk (o : Opts) (size offset : Nat) : Chunk :=
  { offset := offset
    startByte := offset * o.chunkSize
    endByte := min size ((offset + 1) * o.chunkSize)
    tested := false
    retries := 0
    pendingRetry := false
    preprocessState := 0
    markComplete := false
    loaded := 0
    xhr := none }

/-- JS `Math.ceil(a / b)` on naturals (for `b > 0`). -/
def jsCeilDiv (a b : Nat) : Nat := (a + b - 1) / b

/-- Number of chunks built by `ResumableFile.bootstrap`
(src/hooks/useUploader.ts lines 388-389):
`Math.max(round(size / chunkSize), 1)` where `round` is `Math.ceil` when
`forceChunkSize` is set and `Math.floor` otherwise. -/
def bootstrapMaxOffset (o : Opts) (size : Nat) : Nat :=
  max (if o.forceChunkSize then jsCeilDiv size o.chunkSize else size / o.chunkSize) 1

/-- The chunk list rebuilt by `ResumableFile.bootstrap`
(src/hooks/useUploader.ts lines 380-430): one chunk per offset below
`bootstrapMaxOffset`. -/
def bootstrap (o : Opts) (size : Nat) : List Chunk :=
  (List.range (bootstrapMaxOffset o size)).map (createResumableChunk o size)

/-- Options with chunk size 1 MiB and force-chunk-size off (the C1
scenario; these are also the defaults). -/
def optsC1 : Opts := { defaultOptions with chunkSize := 1048576, forceChunkSize := false }

/-- A freshly opened `XMLHttpRequest`: `readyState 0`, HTTP status `0`. -/
def freshXhr : Xhr := ⟨0, 0⟩

/-- State effects of `ResumableChunk.send` (src/unnamed/part_000 lines
286-327): with a preprocess hook configured, states 0/1 only advance or
hold the hook; with test-before-send enabled and the chunk untested, an
existence probe is opened instead; otherwise a fresh upload request is
opened and `loaded`/`pendingRetry` are reset. -/
def Chunk.send (o : Opts) (c : Chunk) : Chunk :=
  if o.preprocessConfigured ∧ c.preprocessState = 0 then { c with preprocessState := 1 }
  else if o.preprocessConfigured ∧ c.preprocessState = 1 then c
  else if o.testChunks ∧ c.tested = false then { c with xhr := some freshXhr }
  else { c with xhr := some freshXhr, loaded := 0, pendingRetry := false }

/-- The transport resolving the in-flight request with HTTP code `t`
(the `load`/`error`/`timeout` listener firing): `readyState` becomes 4. -/
def Chunk.resolve (c : Chunk) (t : Nat) : Chunk :=
  { c with xhr := c.xhr.map fun _ => ⟨4, t⟩ }

/-- Per-chunk events surfaced through the chunk callback. -/
inductive ChunkEvent where
  | progressEvt
  | successEvt
  | errorEvt
  | retryEvt
deriving DecidableEq, Repr

/-- The `doneHandler` of `ResumableChunk.send` (src/unnamed/part_000
lines 329-369): on `success`/`error` the outcome is reported and the
scheduler re-invoked; otherwise the handle is released, `retries` is
incremented and the chunk is re-sent (immediately when no retry interval
is configured, else after marking `pendingRetry`). -/
def Chunk.doneHandler (o : Opts) (c : Chunk) : Chunk × List ChunkEvent :=
  let sc := c.status o
  if sc.1 = .success then (sc.2, [.successEvt])
  else if sc.1 = .error then (sc.2, [.errorEvt])
  else
    let c2 := sc.2.abort
    let c3 := { c2 with retries := c2.retries + 1 }
    match o.chunkRetryInterval with
    | some _ => ({ c3 with pendingRetry := true }, [.retryEvt])
    | none => (c3.send o, [.retryEvt])

/-- One transient failure: the in-flight request resolves with code `t`
and the done handler runs. -/
def Chunk.failStep (o : Opts) (t : Nat) (c : Chunk) : Chunk :=
  ((c.resolve t).doneHandler o).1

/-- The chunk after being sent and then suffering `k` failures with
code `t`. -/
def chunkRun (o : Opts) (t : Nat) (c0 : Chunk) : Nat → Chunk
  | 0 => c0.send o
  | k + 1 => Chunk.failStep o t (chunkRun o t c0 k)

/-- A fresh chunk of the default bootstrap, used to witness C4. -/
def chunkC4 : Chunk := createResumableChunk defaultOptions 2621440 0

/-- Options for the C4 witness: retry maximum 2, immediate retries, no
pre-send probe. -/
def optsC4 : Opts :=
  { defaultOptions with maxChunkRetries := 2, testChunks := false, chunkRetryInterval := none }

/-- State of one `ResumableFile` (the record built by
`createResumableFile`, src/hooks/useUploader.ts lines 900-1066), the
fields read by progress, pause, abort and scheduling: `pause` is
`_pause`, `error` is `_error` (absent ≈ `false`), `prevProgress` is
`_prevProgress`. -/
structure FileState where
  size : Nat
  chunks : List Chunk
  preprocessState : Nat
  pause : Bool
  error : Bool
  prevProgress : ℚ
deriving DecidableEq, Repr

/-- `ResumableChunk.progress(true)` (src/unnamed/part_000 lines 179-196):
relative progress weighted by `(endByte - startByte) / fileSize`; 0 while
a retry is pending; a 0.95 damping while no HTTP status has been seen and
the chunk is not force-completed; 1·factor for `success`/`error`; 0 for
`pending`; `loaded / (endByte - startByte) · factor` while uploading.
The internal `status()` call can release the handle, so the updated chunk
is returned as well. -/
def Chunk.progressRel (o : Opts) (fileSize : Nat) (c : Chunk) : ℚ × Chunk :=
  if c.pendingRetry then (0, c)
  else
    let base : ℚ := ((c.endByte : ℚ) - (c.startByte : ℚ)) / (fileSize : ℚ)
    let noHttpStatus : Bool :=
      match c.xhr with
      | none => true
      | some x => decide (x.httpStatus = 0)
    let factor : ℚ :=
      if noHttpStatus ∧ c.markComplete = false then base * (95 / 100) else base
    let sc := c.status o
    match sc.1 with
    | .success => (factor, sc.2)
    | .error => (factor, sc.2)
    | .pending => (0, sc.2)
    | .uploading =>
      ((c.loaded : ℚ) / ((c.endByte : ℚ) - (c.startByte : ℚ)) * factor, sc.2)

/-- The per-chunk loop of `ResumableFile.progress`
(src/hooks/useUploader.ts lines 920-923): accumulates the relative
progress of every chunk and whether some chunk reports `error`, threading
the chunk mutations of the two `status()` calls. -/
def fileProgressScan (o : Opts) (size : Nat) : List Chunk → ℚ × Bool × List Chunk
  | [] => (0, false, [])
  | c :: cs =>
    let sc := c.status o
    let pc := sc.2.progressRel o size
    let rest := fileProgressScan o size cs
    (pc.1 + rest.1, (decide (sc.1 = .error) || rest.2.1), pc.2 :: rest.2.2)

/-- `ResumableFile.progress` (src/hooks/useUploader.ts lines 913-929):
1 while the file-level error flag is set; otherwise the chunk sum, forced
to 1 when some chunk errored, clamped to 1 above 0.99999, floored at
`_prevProgress`, and stored back into `_prevProgress`. -/
def FileState.progress (o : Opts) (f : FileState) : ℚ × FileState :=
  if f.error then (1, f)
  else
    let scan := fileProgressScan o f.size f.chunks
    let ret1 : ℚ := if scan.2.1 then 1 else if scan.1 > 99999 / 100000 then 1 else scan.1
    let ret2 : ℚ := max f.prevProgress ret1
    (ret2, { f with chunks := scan.2.2, prevProgress := ret2 })

/-- `ResumableFile.abort` (src/hooks/useUploader.ts lines 968-978):
aborts every chunk currently reporting `uploading`. -/
def FileState.abort (o : Opts) (f : FileState) : FileState :=
  { f with chunks := f.chunks.map fun c =>
      let sc := c.status o
      if sc.1 = .uploading then sc.2.abort else sc.2 }

/-- The file-local part of `ResumableFile.pause`
(src/hooks/useUploader.ts lines 947-962): toggle or set `_pause`; when
pausing, abort the in-flight chunks (resuming additionally pokes the
scheduler, which only touches chunk state, covered by `setChunksOp`
below). -/
def FileState.pauseSet (o : Opts) (f : FileState) (b : Option Bool) : FileState :=
  let p := match b with | none => !f.pause | some v => v
  let f1 := { f with pause := p }
  if p then f1.abort o else f1

/-- Operations on one file between progress readings: pause/resume,
abort, the chunk error callback (src/hooks/useUploader.ts lines
1021-1025: abort the file and set `_error`), an arbitrary change of the
chunk list (over-approximating every transport or scheduler effect on
chunk state — none of them writes `_prevProgress` or clears `_error`),
and a `progress()` reading. -/
inductive FileOp where
  | pauseOp (b : Option Bool)
  | abortOp
  | chunkErrorOp
  | setChunksOp (cs : List Chunk)
  | progressCall
deriving Repr

/-- Apply one operation to the file state. -/
def applyFileOp (o : Opts) (f : FileState) : FileOp → FileState
  | .pauseOp b => f.pauseSet o b
  | .abortOp => f.abort o
  | .chunkErrorOp => { f.abort o with error := true }
  | .setChunksOp cs => { f with chunks := cs }
  | .progressCall => (f.progress o).2

/-- Run a sequence of operations, collecting the values returned by the
`progress()` readings in order. -/
def runOps (o : Opts) : List FileOp → FileState → FileState × List ℚ
  | [], f => (f, [])
  | .progressCall :: ops, f =>
    let pr := f.progress o
    let rest := runOps o ops pr.2
    (rest.1, pr.1 :: rest.2)
  | op :: ops, f => runOps o ops (applyFileOp o f op)

/-- The monotone floor that `progress()` can never undercut: 1 once the
error flag is set, else the stored high-water mark. -/
def progressFloor (f : FileState) : ℚ := if f.error then 1 else f.prevProgress

/-- A file as `bootstrap` leaves it: error flag cleared and
`_prevProgress` reset to 0 (src/hooks/useUploader.ts lines 1002-1006). -/
def freshFile (size : Nat) (cs : List Chunk) : FileState :=
  { size := size, chunks := cs, preprocessState := 0, pause := false,
    error := false, prevProgress := 0 }

/-- `ResumableFile.isPaused` (src/hooks/useUploader.ts lines 325-328 and
964-966): "Only check the file's local pause state". -/
def FileState.isPaused (f : FileState) : Bool := f.pause

/-- The chunk scan of `ResumableFile.upload` (src/hooks/useUploader.ts
lines 456-464): send the first chunk reporting `pending` whose pre-send
hook has not started, threading the mutations of the `status()` calls. -/
def scanSend (o : Opts) : List Chunk → Bool × List Chunk
  | [] => (false, [])
  | c :: cs =>
    if (c.status o).1 = .pending ∧ (c.status o).2.preprocessState ≠ 1 then
      (true, (c.status o).2.send o :: cs)
    else ((scanSend o cs).1, (c.status o).2 :: (scanSend o cs).2)

/-- `ResumableFile.upload` (src/hooks/useUploader.ts lines 437-468):
nothing when paused; with a per-file pre-upload hook configured, hook
states 0/1 report busy (state 0 also starts the hook); otherwise the
first pending chunk is dispatched. -/
def FileState.upload (o : Opts) (f : FileState) : Bool × FileState :=
  if f.isPaused then (false, f)
  else if o.preprocessFileConfigured ∧ f.preprocessState = 0 then
    (true, { f with preprocessState := 1 })
  else if o.preprocessFileConfigured ∧ f.preprocessState = 1 then (true, f)
  else ((scanSend o f.chunks).1, { f with chunks := (scanSend o f.chunks).2 })

/-- The indexed `uploadChunk(file, chunkIndex)` helper of
`uploadNextChunk` (src/hooks/useUploader.ts lines 96-106): dispatch
chunk `i` when it reports `pending` and its pre-send hook has not
started. -/
def uploadChunkAt (o : Opts) (f : FileState) (i : Nat) : Bool × FileState :=
  if f.isPaused then (false, f)
  else
    match f.chunks.get? i with
    | none => (false, f)
    | some c =>
      if (c.status o).1 = .pending ∧ (c.status o).2.preprocessState = 0 then
        (true, { f with chunks := f.chunks.set i ((c.status o).2.send o) })
      else (false, { f with chunks := f.chunks.set i (c.status o).2 })

/-- One file's turn in the boundary-priority scan
(src/hooks/useUploader.ts lines 115-121): try this file's first chunk,
then — when it has more than one chunk — this same file's last chunk. -/
def fileBoundaryStep (o : Opts) (f : FileState) : Bool × FileState :=
  if (uploadChunkAt o f 0).1 then uploadChunkAt o f 0
  else if 1 < (uploadChunkAt o f 0).2.chunks.length then
    uploadChunkAt o (uploadChunkAt o f 0).2 ((uploadChunkAt o f 0).2.chunks.length - 1)
  else (false, (uploadChunkAt o f 0).2)

/-- The boundary-priority loop over the files, in admission order
(src/hooks/useUploader.ts lines 114-122). -/
def prioLoop (o : Opts) : List FileState → Bool × List FileState
  | [] => (false, [])
  | f :: fs =>
    if (fileBoundaryStep o f).1 then (true, (fileBoundaryStep o f).2 :: fs)
    else ((prioLoop o fs).1, (fileBoundaryStep o f).2 :: (prioLoop o fs).2)

/-- The regular scan (src/hooks/useUploader.ts lines 124-127): the first
file whose `upload()` reports progress stops the loop. -/
def regLoop (o : Opts) : List FileState → Bool × List FileState
  | [] => (false, [])
  | f :: fs =>
    if (f.upload o).1 then (true, (f.upload o).2 :: fs)
    else ((regLoop o fs).1, (f.upload o).2 :: (regLoop o fs).2)

/-- The chunk loop of `ResumableFile.isComplete`
(src/hooks/useUploader.ts lines 292-300): all chunks must report
`success` with no chunk pre-send hook running; stops at the first
failure. -/
def allSuccessScan (o : Opts) : List Chunk → Bool × List Chunk
  | [] => (true, [])
  | c :: cs =>
    if (c.status o).1 ≠ .success ∨ (c.status o).2.preprocessState = 1 then
      (false, (c.status o).2 :: cs)
    else ((allSuccessScan o cs).1, (c.status o).2 :: (allSuccessScan o cs).2)

/-- `ResumableFile.isComplete` (src/hooks/useUploader.ts lines 280-303):
false while the pre-upload hook runs or with zero chunks, else the chunk
scan. -/
def FileState.isComplete (o : Opts) (f : FileState) : Bool × FileState :=
  if f.preprocessState = 1 then (false, f)
  else if f.chunks.isEmpty then (false, f)
  else ((allSuccessScan o f.chunks).1, { f with chunks := (allSuccessScan o f.chunks).2 })

/-- `currentFiles.every(file => file.isComplete())`
(src/hooks/useUploader.ts line 130), threading mutations and stopping at
the first incomplete file. -/
def everyComplete (o : Opts) : List FileState → Bool × List FileState
  | [] => (true, [])
  | f :: fs =>
    if (f.isComplete o).1 then
      ((everyComplete o fs).1, (f.isComplete o).2 :: (everyComplete o fs).2)
    else (false, (f.isComplete o).2 :: fs)

/-- The stuck-chunk sweep over one file's chunks
(src/hooks/useUploader.ts lines 139-144): send the first chunk not
reporting `success` that holds no in-flight handle. -/
def sweepChunks (o : Opts) : List Chunk → Bool × List Chunk
  | [] => (false, [])
  | c :: cs =>
    if (c.status o).1 ≠ .success ∧ (c.status o).2.xhr = none then
      (true, (c.status o).2.send o :: cs)
    else ((sweepChunks o cs).1, (c.status o).2 :: (sweepChunks o cs).2)

/-- The stuck-chunk sweep over the files (src/hooks/useUploader.ts lines
136-145), skipping paused files. -/
def sweepFiles (o : Opts) : List FileState → Bool × List FileState
  | [] => (false, [])
  | f :: fs =>
    if f.isPaused then ((sweepFiles o fs).1, f :: (sweepFiles o fs).2)
    else if (sweepChunks o f.chunks).1 then
      (true, { f with chunks := (sweepChunks o f.chunks).2 } :: fs)
    else ((sweepFiles o fs).1,
      { f with chunks := (sweepChunks o f.chunks).2 } :: (sweepFiles o fs).2)

/-- Queue-wide notifications fired by the scheduler. -/
inductive QueueEvent where
  | completeEvt
  | uploadStartEvt
deriving DecidableEq, Repr

/-- The queue: the tracked files in admission order (`filesRef.current`). -/
structure UpState where
  files : List FileState
deriving DecidableEq, Repr

/-- `uploadNextChunk` (src/hooks/useUploader.ts lines 89-149): one
scheduler advance.  Priority scan when the boundary policy is on, then
the regular scan, then the completion check firing `complete`, then the
stuck-chunk sweep.  Returns whether a dispatch occurred, the new state
and the queue-wide events fired. -/
def prioPhase (o : Opts) (fs : List FileState) : Bool × List FileState :=
  if o.prioritizeFirstAndLastChunk then prioLoop o fs else (false, fs)

def uploadNextChunk (o : Opts) (s : UpState) : Bool × UpState × List QueueEvent :=
  if s.files.isEmpty then (false, s, [])
  else if (prioPhase o s.files).1 then (true, ⟨(prioPhase o s.files).2⟩, [])
  else if (regLoop o (prioPhase o s.files).2).1 then
    (true, ⟨(regLoop o (prioPhase o s.files).2).2⟩, [])
  else if (everyComplete o (regLoop o (prioPhase o s.files).2).2).1 then
    (false, ⟨(everyComplete o (regLoop o (prioPhase o s.files).2).2).2⟩, [.completeEvt])
  else ((sweepFiles o (everyComplete o (regLoop o (prioPhase o s.files).2).2).2).1,
    ⟨(sweepFiles o (everyComplete o (regLoop o (prioPhase o s.files).2).2).2).2⟩, [])

/-- `simultaneousUploads` successive scheduler advances. -/
def iterAdvance (o : Opts) : Nat → UpState → UpState × List QueueEvent
  | 0, s => (s, [])
  | n + 1, s =>
    ((iterAdvance o n (uploadNextChunk o s).2.1).1,
      (uploadNextChunk o s).2.2 ++ (iterAdvance o n (uploadNextChunk o s).2.1).2)

/-- The `upload()` kick-off (src/hooks/useUploader.ts lines 605-616):
fire `uploadStart`, then invoke `uploadNextChunk` once per concurrency
slot. -/
def upload (o : Opts) (s : UpState) : UpState × List QueueEvent :=
  ((iterAdvance o o.simultaneousUploads s).1,
    .uploadStartEvt :: (iterAdvance o o.simultaneousUploads s).2)

/-- `ResumableFile.pause` seen from the queue (src/hooks/useUploader.ts
lines 947-962): set or toggle the flag on file `i`; pausing aborts its
chunks, resuming pokes the scheduler. -/
def pauseFileAt (o : Opts) (s : UpState) (i : Nat) (b : Option Bool) : UpState :=
  match s.files.get? i with
  | none => s
  | some f =>
    if (f.pauseSet o b).pause then ⟨s.files.set i (f.pauseSet o b)⟩
    else (uploadNextChunk o (⟨s.files.set i (f.pauseSet o b)⟩ : UpState)).2.1

/-- States reachable from `s0` through the public entry points: `upload()`
kick-offs, single scheduler advances (as invoked by chunk completions)
and file pause/resume. -/
inductive Reach (o : Opts) (s0 : UpState) : UpState → Prop where
  | refl : Reach o s0 s0
  | kick {t : UpState} : Reach o s0 t → Reach o s0 (upload o t).1
  | advance {t : UpState} : Reach o s0 t → Reach o s0 (uploadNextChunk o t).2.1
  | pauseStep {t : UpState} (i : Nat) (b : Option Bool) :
      Reach o s0 t → Reach o s0 (pauseFileAt o t i b)

/-- Number of chunks in a list reporting `uploading`. -/
def countUploading (o : Opts) (cs : List Chunk) : Nat :=
  cs.countP fun c => c.reportedStatus o == .uploading

/-- Total `uploading` count of a list of files. -/
def filesUploadingCount (o : Opts) (fs : List FileState) : Nat :=
  (fs.map fun f => countUploading o f.chunks).sum

/-- Number of chunks across the whole queue reporting `uploading`. -/
def UpState.uploadingCount (o : Opts) (s : UpState) : Nat :=
  filesUploadingCount o s.files

/-- The queue used in the C2 counterexample: one file of 6 MiB, freshly
bootstrapped into six 1 MiB chunks, nothing in flight. -/
def stateC2 : UpState := ⟨[freshFile 6291456 (bootstrap defaultOptions 6291456)]⟩

/-- A one-chunk file, freshly bootstrapped and not paused. -/
def fileC8 : FileState := freshFile 1048576 (bootstrap defaultOptions 1048576)

/-- Options with the boundary-chunk priority policy enabled. -/
def optsC6 : Opts := { defaultOptions with prioritizeFirstAndLastChunk := true }

/-- C6 counterexample, file 1: two chunks, the first force-completed
(reports `success`), the last still pending. -/
def fileC6a : FileState :=
  freshFile 2097152
    [{ createResumableChunk defaultOptions 2097152 0 with markComplete := true },
     createResumableChunk defaultOptions 2097152 1]

/-- C6 counterexample, file 2: one fresh pending chunk. -/
def fileC6b : FileState :=
  freshFile 1048576 [createResumableChunk defaultOptions 1048576 0]

/-- The C6 counterexample queue. -/
def stateC6 : UpState := ⟨[fileC6a, fileC6b]⟩

/-- Claim C6's eligibility: the file is not paused and its first chunk is
`pending` with its pre-send hook not started. -/
def firstChunkEligible (o : Opts) (f : FileState) : Bool :=
  !f.pause &&
    (match f.chunks.head? with
     | some c => (c.reportedStatus o == Status.pending) && (c.preprocessState == 0)
     | none => false)

/-- A fully successful single-chunk file (its boundary step dispatches
nothing), used in the C6 witness. -/
def fileC6pre : FileState :=
  freshFile 1048576 [{ createResumableChunk defaultOptions 1048576 0 with markComplete := true }]

/-- The C7 queue: one file whose single chunk is force-completed. -/
def stateC7 : UpState :=
  ⟨[freshFile 1048576
      [{ createResumableChunk defaultOptions 1048576 0 with markComplete := true }]]⟩

/-- "Every tracked file is complete" as a state predicate: no pre-upload
hook running, a non-empty chunk list, and every chunk reporting `success`
with no pre-send hook running. -/
def FileAllSuccess (o : Opts) (f : FileState) : Prop :=
  f.preprocessState ≠ 1 ∧ f.chunks ≠ [] ∧
    ∀ c ∈ f.chunks, c.reportedStatus o = .success ∧ c.preprocessState ≠ 1

instance (o : Opts) (f : FileState) : Decidable (FileAllSuccess o f) := by
  unfold FileAllSuccess
  exact inferInstance

/-- An incoming browser `File` as the admission logic reads it. -/
structure InFile where
  name : String
  size : Nat
  mimeType : String
  relativePath : Option String
  webkitRelativePath : Option String
deriving DecidableEq, Repr

/-- JS `a || b` over a possibly-missing string property: an absent
property and the empty string are both falsy. -/
def jsOrString (a : Option String) (b : String) : String :=
  match a with
  | some s => if s = "" then b else s
  | none => b

/-- The path the identifier uses: `webkitRelativePath || relativePath ||
name` (src/unnamed/part_000 line 80). -/
def effectiveRelativePath (f : InFile) : String :=
  jsOrString f.webkitRelativePath (jsOrString f.relativePath f.name)

/-- The character class `[0-9a-zA-Z_-]`. -/
def keepIdentChar (c : Char) : Bool := c.isAlphanum || c == '_' || c == '-'

/-- `relativePath.replace(/[^0-9a-zA-Z_-]/img, '')`: delete every
character outside the class. -/
def sanitizePath (s : String) : String := ⟨s.data.filter keepIdentChar⟩

/-- The default `generateUniqueIdentifier` (src/unnamed/part_000 lines
71-83, no custom generator configured): `size + '-' + sanitized path`. -/
def generateUniqueIdentifier (f : InFile) : String :=
  toString f.size ++ "-" ++ sanitizePath (effectiveRelativePath f)

/-- The regex `^[^.][^\x2f]+$` of `validateFileType`: a first character
other than `.` followed by one or more characters other than `/`. -/
def extPatternMatch (s : String) : Bool :=
  match s.data with
  | [] => false
  | c :: rest => c != '.' && !rest.isEmpty && rest.all (· != '/')

/-- `type.replace(/\s/g, '').toLowerCase()`. -/
def sanitizeTypeToken (t : String) : String :=
  ⟨(t.data.filter fun c => !c.isWhitespace).map Char.toLower⟩

/-- `validateFileType` (src/hooks/useUploader.ts lines 574-602):
case-insensitive suffix match for extension patterns, exact or
wildcard-prefix match for `type/subtype` MIME patterns. -/
def validateFileType (fileName fileMime : String) (allowedTypes : List String) : Bool :=
  if allowedTypes.isEmpty then true
  else allowedTypes.any fun t0 =>
    if fileName.toLower.endsWith ((if extPatternMatch (sanitizeTypeToken t0)
        then "." else "") ++ sanitizeTypeToken t0) then true
    else if (((if extPatternMatch (sanitizeTypeToken t0) then "." else "") ++
        sanitizeTypeToken t0) : String).contains '/' then
      if (((if extPatternMatch (sanitizeTypeToken t0) then "." else "") ++
          sanitizeTypeToken t0) : String).contains '*' then
        fileMime.startsWith (((((if extPatternMatch (sanitizeTypeToken t0)
          then "." else "") ++ sanitizeTypeToken t0) : String).splitOn "*").headD "")
      else fileMime = ((if extPatternMatch (sanitizeTypeToken t0)
        then "." else "") ++ sanitizeTypeToken t0)
    else false

/-- Admission-time callback invocations and notifications. -/
inductive AdmEvent where
  | maxFilesErrorEvt
  | fileTypeErrorEvt (f : InFile)
  | minFileSizeErrorEvt (f : InFile)
  | maxFileSizeErrorEvt (f : InFile)
  | fileAddedEvt (id : String)
  | filesAddedEvt
  | uploadStartKick
deriving DecidableEq, Repr

/-- The admission options consulted by `appendFilesFromFileList`;
callbacks are modelled by configured-flags. -/
structure AdmOpts where
  maxFiles : Option Nat
  minFileSize : Option Nat
  maxFileSize : Option Nat
  fileType : List String
  hasMaxFilesErrorCallback : Bool
  hasFileTypeErrorCallback : Bool
  hasMinFileSizeErrorCallback : Bool
  hasMaxFileSizeErrorCallback : Bool
deriving DecidableEq, Repr

/-- `options.maxFiles && options.maxFiles < n` (JS truthiness: `0` and
absence are falsy). -/
def maxFilesExceeded (o : AdmOpts) (nNew nTracked : Nat) : Bool :=
  match o.maxFiles with
  | some m => decide (m ≠ 0) && decide (m < nNew + nTracked)
  | none => false

/-- `options.minFileSize && file.size < options.minFileSize`. -/
def minSizeReject (o : AdmOpts) (f : InFile) : Bool :=
  match o.minFileSize with
  | some m => decide (m ≠ 0) && decide (f.size < m)
  | none => false

/-- `options.maxFileSize && file.size > options.maxFileSize`. -/
def maxSizeReject (o : AdmOpts) (f : InFile) : Bool :=
  match o.maxFileSize with
  | some m => decide (m ≠ 0) && decide (m < f.size)
  | none => false

/-- The per-file loop of `appendFilesFromFileList`
(src/hooks/useUploader.ts lines 509-558): type check, size checks,
identifier generation, duplicate check against `dedupIds`, admission.
`dedupIds` stays the snapshot taken on entry for the whole batch, because
`getFromUniqueIdentifier` reads `filesRef.current`, which the deferred
React state updates have not yet refreshed.  Returns (admitted
identifiers, duplicate-skipped files, events). -/
def admitLoop (o : AdmOpts) (dedupIds : List String) :
    List InFile → List String × List InFile × List AdmEvent
  | [] => ([], [], [])
  | f :: fs =>
    if validateFileType f.name f.mimeType o.fileType = false then
      ((admitLoop o dedupIds fs).1, (admitLoop o dedupIds fs).2.1,
        (if o.hasFileTypeErrorCallback then [AdmEvent.fileTypeErrorEvt f] else []) ++
          (admitLoop o dedupIds fs).2.2)
    else if minSizeReject o f then
      ((admitLoop o dedupIds fs).1, (admitLoop o dedupIds fs).2.1,
        (if o.hasMinFileSizeErrorCallback then [AdmEvent.minFileSizeErrorEvt f] else []) ++
          (admitLoop o dedupIds fs).2.2)
    else if maxSizeReject o f then
      ((admitLoop o dedupIds fs).1, (admitLoop o dedupIds fs).2.1,
        (if o.hasMaxFileSizeErrorCallback then [AdmEvent.maxFileSizeErrorEvt f] else []) ++
          (admitLoop o dedupIds fs).2.2)
    else if generateUniqueIdentifier f ∈ dedupIds then
      ((admitLoop o dedupIds fs).1, f :: (admitLoop o dedupIds fs).2.1,
        (admitLoop o dedupIds fs).2.2)
    else
      (generateUniqueIdentifier f :: (admitLoop o dedupIds fs).1,
        (admitLoop o dedupIds fs).2.1,
        AdmEvent.fileAddedEvt (generateUniqueIdentifier f) ::
          (admitLoop o dedupIds fs).2.2)

/-- Outcome of one `appendFilesFromFileList` call. -/
structure AdmResult where
  ok : Bool
  replacedExisting : Bool
  admitted : List String
  skippedDup : List InFile
  events : List AdmEvent
  tracked : List String
deriving DecidableEq, Repr

/-- The tail of `appendFilesFromFileList` once the max-files gate let the
batch through: run the per-file loop (against the stale snapshot), fire
`filesAdded` when something was admitted or skipped, kick `upload()` when
something was admitted, and commit the deferred state updates (the
special-case removal of the first tracked file, then the additions). -/
def admitFinish (o : AdmOpts) (tracked : List String) (fileList : List InFile)
    (replaced : Bool) : AdmResult :=
  { ok := true
    replacedExisting := replaced
    admitted := (admitLoop o tracked fileList).1
    skippedDup := (admitLoop o tracked fileList).2.1
    events := (admitLoop o tracked fileList).2.2 ++
      (if (admitLoop o tracked fileList).1 ≠ [] ∨
          (admitLoop o tracked fileList).2.1 ≠ [] then [AdmEvent.filesAddedEvt] else []) ++
      (if (admitLoop o tracked fileList).1 ≠ [] then [AdmEvent.uploadStartKick] else [])
    tracked := (if replaced then tracked.drop 1 else tracked) ++
      (admitLoop o tracked fileList).1 }

/-- `appendFilesFromFileList` (src/hooks/useUploader.ts lines 488-571):
the max-files ceiling with its single-file replacement special case, then
the per-file loop. -/
def appendFilesFromFileList (o : AdmOpts) (tracked : List String)
    (fileList : List InFile) : AdmResult :=
  if maxFilesExceeded o fileList.length tracked.length then
    if o.maxFiles = some 1 ∧ tracked.length = 1 ∧ fileList.length = 1 then
      admitFinish o tracked fileList true
    else
      { ok := false, replacedExisting := false, admitted := [], skippedDup := []
        events := if o.hasMaxFilesErrorCallback then [AdmEvent.maxFilesErrorEvt] else []
        tracked := tracked }
  else admitFinish o tracked fileList false

/-- Admission options for the C9 scenarios: ceiling 1, all rejection
callbacks configured, no other limits. -/
def admOptsC9 : AdmOpts :=
  { maxFiles := some 1, minFileSize := none, maxFileSize := none, fileType := []
    hasMaxFilesErrorCallback := true, hasFileTypeErrorCallback := true
    hasMinFileSizeErrorCallback := true, hasMaxFileSizeErrorCallback := true }

/-- An incoming file whose identifier (`5-a`) collides with the already
tracked file. -/
def fileC9dup : InFile := ⟨"a", 5, "", none, none⟩

/-- A fresh incoming file with identifier `7-b`. -/
def fileC9new : InFile := ⟨"b", 7, "", none, none⟩

/-- Admission options with everything unlimited (the defaults). -/
def admOptsC10 : AdmOpts :=
  { maxFiles := none, minFileSize := none, maxFileSize := none, fileType := []
    hasMaxFilesErrorCallback := true, hasFileTypeErrorCallback := true
    hasMinFileSizeErrorCallback := true, hasMaxFileSizeErrorCallback := true }

/-- `a b.txt`, 5 bytes: identifier `5-abtxt`. -/
def fileC10a : InFile := ⟨"a b.txt", 5, "", none, none⟩

/-- `a+b.txt`, 5 bytes: same identifier `5-abtxt`. -/
def fileC10b : InFile := ⟨"a+b.txt", 5, "text/plain", none, none⟩

/-! ## Theorems -/
/-- C3: `status()` is a pure function of the chunk's attributes with the
exact precedence pendingRetry → uploading; markComplete → success; no
handle → pending; unresolved handle → uploading; 200/201 → success;
permanent code or retries ≥ max → error; otherwise pending, with the
in-flight handle released exactly in that last (transient) branch. -/
theorem C3_status_precedence (o : Opts) (c : Chunk) :
    c.reportedStatus o = statusSpec o c ∧
      (c.status o).2.xhr = (if c.transientResolved o then none else c.xhr) := by
  constructor
  · unfold Chunk.reportedStatus Chunk.status statusSpec
    by_cases hpr : c.pendingRetry
    · simp [hpr]
    by_cases hmc : c.markComplete
    · simp [hpr, hmc]
    cases hx : c.xhr with
    | none => simp [hpr, hmc]
    | some x =>
      by_cases h4 : x.readyState < 4
      · simp [hpr, hmc, h4]
      by_cases hs : x.httpStatus = 200 ∨ x.httpStatus = 201
      · simp [hpr, hmc, h4, hs]
      by_cases hp : x.httpStatus ∈ o.permanentErrors ∨ o.maxChunkRetries ≤ c.retries
      · simp [hpr, hmc, h4, hs, hp]
      · simp [hpr, hmc, h4, hs, hp]
  · by_cases ht : c.transientResolved o
    · rw [if_pos ht]
      obtain ⟨h1, h2, x, hx, h4, hs, hp⟩ := ht
      unfold Chunk.status
      simp [h1, h2, hx, Nat.not_lt.mpr h4, hs, hp, Chunk.abort]
    · rw [if_neg ht]
      unfold Chunk.status
      by_cases hpr : c.pendingRetry
      · simp [hpr]
      by_cases hmc : c.markComplete
      · simp [hpr, hmc]
      cases hx : c.xhr with
      | none => simp [hpr, hmc, hx]
      | some x =>
        by_cases h4 : x.readyState < 4
        · simp [hpr, hmc, hx, h4]
        by_cases hs : x.httpStatus = 200 ∨ x.httpStatus = 201
        · simp [hpr, hmc, hx, h4, hs]
        by_cases hp : x.httpStatus ∈ o.permanentErrors ∨ o.maxChunkRetries ≤ c.retries
        · simp [hpr, hmc, hx, h4, hs, hp]
        · exact absurd ⟨Bool.eq_false_iff.mpr hpr, Bool.eq_false_iff.mpr hmc,
            x, hx, Nat.le_of_not_lt h4, hs, hp⟩ ht

/-! ## Chunk construction and the bootstrap partition (claims C1, C4) -/

/-- C1 (evaluation at the failing input): for chunk size 1 MiB, force off
and file size 2.5 MiB the bootstrap partition has the claimed count of 2
chunks, but the second chunk covers [1 MiB, 2 MiB), not [1 MiB, 2.5 MiB):
byte 2097152 (2 MiB), which lies inside [0, 2621440), belongs to no
chunk, so the ranges do not cover [0, size) and the final chunk is not
larger than the chunk size. -/
theorem C1_partition_tail_dropped :
    (bootstrap optsC1 2621440).length = 2 ∧
      (bootstrap optsC1 2621440).map (fun c => (c.startByte, c.endByte)) =
        [(0, 1048576), (1048576, 2097152)] ∧
      ¬ ∃ c ∈ bootstrap optsC1 2621440, c.startByte ≤ 2097152 ∧ 2097152 < c.endByte := by
  refine ⟨by decide, by decide, ?_⟩
  decide

/-! ## The per-chunk retry loop (claim C4) -/

lemma chunkRun_inflight (o : Opts) (t : Nat) (c0 : Chunk)
    (htest : o.testChunks = false) (hpre : o.preprocessConfigured = false)
    (hint : o.chunkRetryInterval = none)
    (ht200 : t ≠ 200) (ht201 : t ≠ 201) (htp : t ∉ o.permanentErrors)
    (hr : c0.retries = 0) (hmc : c0.markComplete = false) :
    ∀ k, k ≤ o.maxChunkRetries →
      chunkRun o t c0 k =
        { c0 with xhr := some freshXhr, loaded := 0, pendingRetry := false, retries := k } := by
  intro k
  induction k with
  | zero =>
    intro _
    rcases c0 with ⟨off, sb, eb, tst, ret, pr, pps, mc, ld, x⟩
    simp only at hr hmc
    subst hr; subst hmc
    simp [chunkRun, Chunk.send, hpre, htest]
  | succ k ih =>
    intro hk
    have hklt : k < o.maxChunkRetries := Nat.lt_of_succ_le hk
    have hstate := ih (Nat.le_of_lt hklt)
    show Chunk.failStep o t (chunkRun o t c0 k) = _
    rw [hstate]
    simp [Chunk.failStep, Chunk.resolve, Chunk.doneHandler, Chunk.status, Chunk.abort,
      Chunk.send, freshXhr, hpre, htest, hint, hmc, ht200, ht201, htp,
      Nat.not_le.mpr hklt]

lemma chunkRun_terminal (o : Opts) (t : Nat) (c0 : Chunk)
    (htest : o.testChunks = false) (hpre : o.preprocessConfigured = false)
    (hint : o.chunkRetryInterval = none)
    (ht200 : t ≠ 200) (ht201 : t ≠ 201) (htp : t ∉ o.permanentErrors)
    (hr : c0.retries = 0) (hmc : c0.markComplete = false) :
    ∀ k, o.maxChunkRetries < k →
      chunkRun o t c0 k =
        { c0 with xhr := some ⟨4, t⟩, loaded := 0, pendingRetry := false,
                  retries := o.maxChunkRetries } := by
  intro k
  induction k with
  | zero => intro hk; exact absurd hk (Nat.not_lt_zero _)
  | succ k ih =>
    intro hk
    rcases Nat.lt_or_ge o.maxChunkRetries k with h | h
    · show Chunk.failStep o t (chunkRun o t c0 k) = _
      rw [ih h]
      simp [Chunk.failStep, Chunk.resolve, Chunk.doneHandler, Chunk.status, hmc, ht200,
        ht201, Nat.le_refl]
    · have hkm : k = o.maxChunkRetries := Nat.le_antisymm h (Nat.lt_succ_iff.mp hk)
      show Chunk.failStep o t (chunkRun o t c0 k) = _
      rw [chunkRun_inflight o t c0 htest hpre hint ht200 ht201 htp hr hmc k h, hkm]
      simp [Chunk.failStep, Chunk.resolve, Chunk.doneHandler, Chunk.status, hmc, ht200,
        ht201, Nat.le_refl]

/-- C4: along a run of transient failures (a code that is neither a
success code nor in the permanent-error set), `retries` increases by
exactly one per failure; the chunk reports `uploading` (in flight) while
`retries ≤ maxChunkRetries` and turns terminal `error` exactly when a
failure resolves with `retries` at the maximum — never before — after
which no further retry happens and the state is frozen.  The final
conjunct states the "exactly at the maximum" boundary as a biconditional
for any resolved transiently-coded chunk. -/
theorem C4_retry_policy (o : Opts) (t : Nat) (c0 : Chunk)
    (htest : o.testChunks = false) (hpre : o.preprocessConfigured = false)
    (hint : o.chunkRetryInterval = none)
    (ht200 : t ≠ 200) (ht201 : t ≠ 201) (htp : t ∉ o.permanentErrors)
    (hr : c0.retries = 0) (hmc : c0.markComplete = false) :
    (∀ k, k ≤ o.maxChunkRetries →
        (chunkRun o t c0 k).retries = k ∧
          (chunkRun o t c0 k).reportedStatus o = .uploading) ∧
      (∀ k, o.maxChunkRetries < k →
          chunkRun o t c0 k = chunkRun o t c0 (o.maxChunkRetries + 1) ∧
            (chunkRun o t c0 k).retries = o.maxChunkRetries ∧
            (chunkRun o t c0 k).reportedStatus o = .error) ∧
      (∀ c : Chunk, c.pendingRetry = false → c.markComplete = false →
          c.xhr = some ⟨4, t⟩ →
          (c.reportedStatus o = .error ↔ o.maxChunkRetries ≤ c.retries)) := by
  refine ⟨?_, ?_, ?_⟩
  · intro k hk
    rw [chunkRun_inflight o t c0 htest hpre hint ht200 ht201 htp hr hmc k hk]
    constructor
    · rfl
    · simp [Chunk.reportedStatus, Chunk.status, freshXhr, hmc]
  · intro k hk
    rw [chunkRun_terminal o t c0 htest hpre hint ht200 ht201 htp hr hmc k hk,
      chunkRun_terminal o t c0 htest hpre hint ht200 ht201 htp hr hmc
        (o.maxChunkRetries + 1) (Nat.lt_succ_self _)]
    refine ⟨rfl, rfl, ?_⟩
    simp [Chunk.reportedStatus, Chunk.status, hmc, ht200, ht201, Nat.le_refl]
  · intro c hcpr hcmc hcx
    by_cases hcr : o.maxChunkRetries ≤ c.retries <;>
      simp [Chunk.reportedStatus, Chunk.status, hcpr, hcmc, hcx, ht200, ht201, htp, hcr]

/-- Witness for C4 at `maxChunkRetries = 2` and transient code 503: after
2 failures the chunk has `retries = 2` and is still busy; the 3rd failure
makes it terminal `error`, and 2 further failures change nothing. -/
theorem C4_retry_policy_witness :
    (chunkRun optsC4 503 chunkC4 2).retries = 2 ∧
      (chunkRun optsC4 503 chunkC4 2).reportedStatus optsC4 = .uploading ∧
      (chunkRun optsC4 503 chunkC4 3).reportedStatus optsC4 = .error ∧
      chunkRun optsC4 503 chunkC4 5 = chunkRun optsC4 503 chunkC4 3 := by
  have h := C4_retry_policy optsC4 503 chunkC4 (by decide) (by decide) (by decide)
    (by decide) (by decide) (by decide) (by decide) (by decide)
  refine ⟨(h.1 2 (by decide)).1, (h.1 2 (by decide)).2, (h.2.1 3 (by decide)).2.2, ?_⟩
  rw [(h.2.1 5 (by decide)).1, (h.2.1 3 (by decide)).1]

/-! ## File state, progress aggregation and monotonicity (claim C5) -/

lemma abort_error (o : Opts) (f : FileState) : (f.abort o).error = f.error := rfl

lemma abort_prevProgress (o : Opts) (f : FileState) :
    (f.abort o).prevProgress = f.prevProgress := rfl

lemma pauseSet_error (o : Opts) (f : FileState) (b : Option Bool) :
    (f.pauseSet o b).error = f.error := by
  unfold FileState.pauseSet
  split <;> (dsimp only []; split <;> rfl)

lemma pauseSet_prevProgress (o : Opts) (f : FileState) (b : Option Bool) :
    (f.pauseSet o b).prevProgress = f.prevProgress := by
  unfold FileState.pauseSet
  split <;> (dsimp only []; split <;> rfl)

lemma progress_spec (o : Opts) (f : FileState)
    (h0 : 0 ≤ f.prevProgress) (h1 : f.prevProgress ≤ 1) :
    progressFloor f ≤ (f.progress o).1 ∧ (f.progress o).1 ≤ 1 ∧
      (f.progress o).1 = progressFloor (f.progress o).2 ∧
      0 ≤ (f.progress o).2.prevProgress ∧ (f.progress o).2.prevProgress ≤ 1 := by
  by_cases he : f.error
  · have heq : f.progress o = (1, f) := by
      unfold FileState.progress
      rw [if_pos he]
    rw [heq]
    unfold progressFloor
    rw [if_pos he]
    exact ⟨le_refl 1, le_refl 1, rfl, h0, h1⟩
  · have heq : f.progress o =
        (max f.prevProgress
          (if (fileProgressScan o f.size f.chunks).2.1 then 1
            else if (fileProgressScan o f.size f.chunks).1 > 99999 / 100000 then 1
            else (fileProgressScan o f.size f.chunks).1),
         { f with
            chunks := (fileProgressScan o f.size f.chunks).2.2,
            prevProgress := max f.prevProgress
              (if (fileProgressScan o f.size f.chunks).2.1 then 1
                else if (fileProgressScan o f.size f.chunks).1 > 99999 / 100000 then 1
                else (fileProgressScan o f.size f.chunks).1) }) := by
      unfold FileState.progress
      rw [if_neg he]
    have hr1 : (if (fileProgressScan o f.size f.chunks).2.1 then (1 : ℚ)
        else if (fileProgressScan o f.size f.chunks).1 > 99999 / 100000 then 1
        else (fileProgressScan o f.size f.chunks).1) ≤ 1 := by
      split
      · exact le_refl 1
      split
      · exact le_refl 1
      next h => exact le_trans (not_lt.mp h) (by norm_num)
    rw [heq]
    have hfl : progressFloor f = f.prevProgress := by
      unfold progressFloor
      rw [if_neg he]
    have hfl2 : progressFloor
        { f with
          chunks := (fileProgressScan o f.size f.chunks).2.2,
          prevProgress := max f.prevProgress
            (if (fileProgressScan o f.size f.chunks).2.1 then 1
              else if (fileProgressScan o f.size f.chunks).1 > 99999 / 100000 then 1
              else (fileProgressScan o f.size f.chunks).1) } =
        max f.prevProgress
          (if (fileProgressScan o f.size f.chunks).2.1 then 1
            else if (fileProgressScan o f.size f.chunks).1 > 99999 / 100000 then 1
            else (fileProgressScan o f.size f.chunks).1) := by
      unfold progressFloor
      rw [if_neg he]
    exact ⟨hfl ▸ le_max_left _ _, max_le h1 hr1, hfl2.symm,
      le_trans h0 (le_max_left _ _), max_le h1 hr1⟩

lemma applyFileOp_floor (o : Opts) (f : FileState) (op : FileOp)
    (h0 : 0 ≤ f.prevProgress) (h1 : f.prevProgress ≤ 1) :
    progressFloor f ≤ progressFloor (applyFileOp o f op) ∧
      0 ≤ (applyFileOp o f op).prevProgress ∧ (applyFileOp o f op).prevProgress ≤ 1 := by
  cases op with
  | pauseOp b =>
    show progressFloor f ≤ progressFloor (f.pauseSet o b) ∧
        0 ≤ (f.pauseSet o b).prevProgress ∧ (f.pauseSet o b).prevProgress ≤ 1
    unfold progressFloor
    rw [pauseSet_error, pauseSet_prevProgress]
    exact ⟨le_refl _, h0, h1⟩
  | abortOp =>
    show progressFloor f ≤ progressFloor (f.abort o) ∧
        0 ≤ (f.abort o).prevProgress ∧ (f.abort o).prevProgress ≤ 1
    unfold progressFloor
    rw [abort_error, abort_prevProgress]
    exact ⟨le_refl _, h0, h1⟩
  | chunkErrorOp =>
    show progressFloor f ≤ progressFloor { f.abort o with error := true } ∧
        0 ≤ ({ f.abort o with error := true } : FileState).prevProgress ∧
        ({ f.abort o with error := true } : FileState).prevProgress ≤ 1
    unfold progressFloor
    refine ⟨?_, h0, h1⟩
    by_cases he : f.error
    · rw [if_pos he]; simp
    · rw [if_neg he]; simpa using h1
  | setChunksOp cs =>
    show progressFloor f ≤ progressFloor { f with chunks := cs } ∧
        0 ≤ ({ f with chunks := cs } : FileState).prevProgress ∧
        ({ f with chunks := cs } : FileState).prevProgress ≤ 1
    unfold progressFloor
    exact ⟨le_refl _, h0, h1⟩
  | progressCall =>
    have h := progress_spec o f h0 h1
    exact ⟨le_trans h.1 (le_of_eq h.2.2.1), h.2.2.2.1, h.2.2.2.2⟩

lemma runOps_mono (o : Opts) : ∀ (ops : List FileOp) (f : FileState),
    0 ≤ f.prevProgress → f.prevProgress ≤ 1 →
    List.Chain' (· ≤ ·) (runOps o ops f).2 ∧
      ∀ x ∈ (runOps o ops f).2, progressFloor f ≤ x ∧ x ≤ 1 := by
  intro ops
  induction ops with
  | nil => intro f _ _; simp [runOps]
  | cons op ops ih =>
    intro f h0 h1
    cases op with
    | progressCall =>
      have hsp := progress_spec o f h0 h1
      have hrest := ih ((f.progress o).2) hsp.2.2.2.1 hsp.2.2.2.2
      constructor
      · show List.Chain' (· ≤ ·) ((f.progress o).1 :: (runOps o ops (f.progress o).2).2)
        refine List.Chain'.cons' hrest.1 ?_
        intro y hy
        have hmem := List.mem_of_mem_head? hy
        exact le_trans (le_of_eq hsp.2.2.1) ((hrest.2 y hmem).1)
      · intro x hx
        rcases List.mem_cons.mp hx with h | h
        · exact ⟨h ▸ hsp.1, h ▸ hsp.2.1⟩
        · exact ⟨le_trans hsp.1 (le_trans (le_of_eq hsp.2.2.1) (hrest.2 x h).1),
            (hrest.2 x h).2⟩
    | pauseOp b =>
      have hop := applyFileOp_floor o f (.pauseOp b) h0 h1
      have hrest := ih (applyFileOp o f (.pauseOp b)) hop.2.1 hop.2.2
      exact ⟨hrest.1, fun x hx => ⟨le_trans hop.1 (hrest.2 x hx).1, (hrest.2 x hx).2⟩⟩
    | abortOp =>
      have hop := applyFileOp_floor o f .abortOp h0 h1
      have hrest := ih (applyFileOp o f .abortOp) hop.2.1 hop.2.2
      exact ⟨hrest.1, fun x hx => ⟨le_trans hop.1 (hrest.2 x hx).1, (hrest.2 x hx).2⟩⟩
    | chunkErrorOp =>
      have hop := applyFileOp_floor o f .chunkErrorOp h0 h1
      have hrest := ih (applyFileOp o f .chunkErrorOp) hop.2.1 hop.2.2
      exact ⟨hrest.1, fun x hx => ⟨le_trans hop.1 (hrest.2 x hx).1, (hrest.2 x hx).2⟩⟩
    | setChunksOp cs =>
      have hop := applyFileOp_floor o f (.setChunksOp cs) h0 h1
      have hrest := ih (applyFileOp o f (.setChunksOp cs)) hop.2.1 hop.2.2
      exact ⟨hrest.1, fun x hx => ⟨le_trans hop.1 (hrest.2 x hx).1, (hrest.2 x hx).2⟩⟩

/-- C5: over any sequence of pause/resume/abort operations, chunk error
callbacks and arbitrary per-chunk transport events on a bootstrapped
file, the successive values returned by `File.progress()` are
monotonically non-decreasing and stay within [0, 1]. -/
theorem C5_progress_monotone (o : Opts) (size : Nat) (cs : List Chunk)
    (ops : List FileOp) :
    List.Chain' (· ≤ ·) (runOps o ops (freshFile size cs)).2 ∧
      ∀ x ∈ (runOps o ops (freshFile size cs)).2, 0 ≤ x ∧ x ≤ 1 := by
  have h := runOps_mono o ops (freshFile size cs) (by norm_num [freshFile])
    (by norm_num [freshFile])
  refine ⟨h.1, fun x hx => ⟨?_, (h.2 x hx).2⟩⟩
  have := (h.2 x hx).1
  simpa [progressFloor, freshFile] using this

/-- Witness for C5 on a concrete bootstrapped file and a concrete
progress/pause/progress sequence. -/
theorem C5_progress_monotone_witness :
    List.Chain' (· ≤ ·)
        (runOps defaultOptions
          [FileOp.progressCall, FileOp.pauseOp (some true), FileOp.progressCall]
          (freshFile 1048576 (bootstrap defaultOptions 1048576))).2 ∧
      ∀ x ∈ (runOps defaultOptions
          [FileOp.progressCall, FileOp.pauseOp (some true), FileOp.progressCall]
          (freshFile 1048576 (bootstrap defaultOptions 1048576))).2,
        0 ≤ x ∧ x ≤ 1 :=
  C5_progress_monotone defaultOptions 1048576 (bootstrap defaultOptions 1048576)
    [FileOp.progressCall, FileOp.pauseOp (some true), FileOp.progressCall]

/-! ## The scheduler (claims C2, C6, C7, C8) -/

lemma afterStatus_reported (o : Opts) (c : Chunk) :
    ((c.status o).2).reportedStatus o = c.reportedStatus o := by
  by_cases hpr : c.pendingRetry
  · unfold Chunk.reportedStatus Chunk.status
    simp [hpr]
  by_cases hmc : c.markComplete
  · unfold Chunk.reportedStatus Chunk.status
    simp [hpr, hmc]
  cases hx : c.xhr with
  | none =>
    unfold Chunk.reportedStatus Chunk.status
    simp [hpr, hmc, hx]
  | some x =>
    by_cases h4 : x.readyState < 4
    · unfold Chunk.reportedStatus Chunk.status
      simp [hpr, hmc, hx, h4]
    by_cases hs : x.httpStatus = 200 ∨ x.httpStatus = 201
    · unfold Chunk.reportedStatus Chunk.status
      simp [hpr, hmc, hx, h4, hs]
    by_cases hp : x.httpStatus ∈ o.permanentErrors ∨ o.maxChunkRetries ≤ c.retries
    · unfold Chunk.reportedStatus Chunk.status
      simp [hpr, hmc, hx, h4, hs, hp]
    · unfold Chunk.reportedStatus Chunk.status
      simp [hpr, hmc, hx, h4, hs, hp, Chunk.abort]

lemma countUploading_nil (o : Opts) : countUploading o [] = 0 := rfl

lemma countUploading_cons (o : Opts) (c : Chunk) (cs : List Chunk) :
    countUploading o (c :: cs) =
      countUploading o cs + (if c.reportedStatus o == Status.uploading then 1 else 0) := by
  simp [countUploading, List.countP_cons]

lemma countUploading_set_le (o : Opts) : ∀ (l : List Chunk) (i : Nat) (x : Chunk),
    countUploading o (l.set i x) ≤ countUploading o l + 1 := by
  intro l
  induction l with
  | nil => intro i x; simp [countUploading]
  | cons a l ih =>
    intro i x
    cases i with
    | zero =>
      show countUploading o (x :: l) ≤ countUploading o (a :: l) + 1
      rw [countUploading_cons, countUploading_cons]
      have h1 : (if x.reportedStatus o == Status.uploading then 1 else 0) ≤ 1 := by
        split <;> omega
      omega
    | succ i =>
      show countUploading o (a :: l.set i x) ≤ countUploading o (a :: l) + 1
      rw [countUploading_cons, countUploading_cons]
      have := ih i x
      omega

lemma countUploading_set_eq (o : Opts) : ∀ (l : List Chunk) (i : Nat) (c x : Chunk),
    l.get? i = some c →
    (x.reportedStatus o == Status.uploading) = (c.reportedStatus o == Status.uploading) →
    countUploading o (l.set i x) = countUploading o l := by
  intro l
  induction l with
  | nil => intro i c x h _; simp at h
  | cons a l ih =>
    intro i c x h hpred
    cases i with
    | zero =>
      simp only [List.get?_cons_zero, Option.some.injEq] at h
      show countUploading o (x :: l) = countUploading o (a :: l)
      rw [countUploading_cons, countUploading_cons, hpred, h]
    | succ i =>
      show countUploading o (a :: l.set i x) = countUploading o (a :: l)
      rw [countUploading_cons, countUploading_cons,
        ih i c x (by simpa using h) hpred]

lemma scanSend_count (o : Opts) : ∀ cs : List Chunk,
    countUploading o (scanSend o cs).2 ≤ countUploading o cs + 1 ∧
      ((scanSend o cs).1 = false →
        countUploading o (scanSend o cs).2 = countUploading o cs) := by
  intro cs
  induction cs with
  | nil => exact ⟨by simp [scanSend], fun _ => by simp [scanSend]⟩
  | cons c cs ih =>
    by_cases hd : (c.status o).1 = .pending ∧ (c.status o).2.preprocessState ≠ 1
    · have he : scanSend o (c :: cs) = (true, (c.status o).2.send o :: cs) := by
        simp [scanSend, hd]
      rw [he]
      refine ⟨?_, by simp⟩
      rw [countUploading_cons, countUploading_cons]
      have h1 : (if ((c.status o).2.send o).reportedStatus o == Status.uploading
          then 1 else 0) ≤ 1 := by
        split <;> omega
      omega
    · have he : scanSend o (c :: cs) =
          ((scanSend o cs).1, (c.status o).2 :: (scanSend o cs).2) := by
        simp [scanSend, hd]
      rw [he]
      have hpres : ((c.status o).2.reportedStatus o == Status.uploading) =
          (c.reportedStatus o == Status.uploading) := by
        rw [afterStatus_reported]
      constructor
      · dsimp only
        rw [countUploading_cons, countUploading_cons, hpres]
        have := ih.1
        omega
      · intro hfalse
        dsimp only at hfalse ⊢
        rw [countUploading_cons, countUploading_cons, hpres, ih.2 hfalse]

lemma fileUpload_count (o : Opts) (f : FileState) :
    countUploading o (f.upload o).2.chunks ≤ countUploading o f.chunks + 1 ∧
      ((f.upload o).1 = false →
        countUploading o (f.upload o).2.chunks = countUploading o f.chunks) := by
  unfold FileState.upload
  split
  · exact ⟨by dsimp only; omega, fun _ => by dsimp only⟩
  split
  · exact ⟨by dsimp only; omega, fun h => by cases h⟩
  split
  · exact ⟨by dsimp only; omega, fun h => by cases h⟩
  · have h := scanSend_count o f.chunks
    exact ⟨h.1, h.2⟩

lemma uploadChunkAt_count (o : Opts) (f : FileState) (i : Nat) :
    countUploading o (uploadChunkAt o f i).2.chunks ≤ countUploading o f.chunks + 1 ∧
      ((uploadChunkAt o f i).1 = false →
        countUploading o (uploadChunkAt o f i).2.chunks = countUploading o f.chunks) := by
  unfold uploadChunkAt
  split
  · exact ⟨by dsimp only; omega, fun _ => by dsimp only⟩
  split
  · exact ⟨by dsimp only; omega, fun _ => by dsimp only⟩
  next c hc =>
    split
    · refine ⟨?_, fun h => by cases h⟩
      dsimp only
      exact countUploading_set_le o f.chunks i _
    · have heq : countUploading o (f.chunks.set i (c.status o).2) =
          countUploading o f.chunks :=
        countUploading_set_eq o f.chunks i c (c.status o).2 hc
          (by rw [afterStatus_reported])
      exact ⟨by dsimp only; omega, fun _ => by dsimp only; exact heq⟩

lemma fileBoundaryStep_count (o : Opts) (f : FileState) :
    countUploading o (fileBoundaryStep o f).2.chunks ≤ countUploading o f.chunks + 1 ∧
      ((fileBoundaryStep o f).1 = false →
        countUploading o (fileBoundaryStep o f).2.chunks = countUploading o f.chunks) := by
  unfold fileBoundaryStep
  have h0 := uploadChunkAt_count o f 0
  split
  next hcond =>
    exact ⟨h0.1, fun h => by rw [h] at hcond; cases hcond⟩
  next hcond =>
    have hfalse : (uploadChunkAt o f 0).1 = false := Bool.eq_false_iff.mpr hcond
    have h0eq := h0.2 hfalse
    split
    · have h1 := uploadChunkAt_count o (uploadChunkAt o f 0).2
        ((uploadChunkAt o f 0).2.chunks.length - 1)
      constructor
      · have := h1.1
        omega
      · intro h
        rw [h1.2 h, h0eq]
    · exact ⟨by dsimp only; omega, fun _ => by dsimp only; exact h0eq⟩

lemma filesUploadingCount_nil (o : Opts) : filesUploadingCount o [] = 0 := rfl

lemma filesUploadingCount_cons (o : Opts) (f : FileState) (fs : List FileState) :
    filesUploadingCount o (f :: fs) =
      countUploading o f.chunks + filesUploadingCount o fs := by
  simp [filesUploadingCount]

lemma prioLoop_count (o : Opts) : ∀ fs : List FileState,
    filesUploadingCount o (prioLoop o fs).2 ≤ filesUploadingCount o fs + 1 ∧
      ((prioLoop o fs).1 = false →
        filesUploadingCount o (prioLoop o fs).2 = filesUploadingCount o fs) := by
  intro fs
  induction fs with
  | nil => exact ⟨by simp [prioLoop], fun _ => by simp [prioLoop]⟩
  | cons f fs ih =>
    have hf := fileBoundaryStep_count o f
    by_cases hd : (fileBoundaryStep o f).1 = true
    · have he : prioLoop o (f :: fs) = (true, (fileBoundaryStep o f).2 :: fs) := by
        simp [prioLoop, hd]
      rw [he]
      refine ⟨?_, by simp⟩
      rw [filesUploadingCount_cons, filesUploadingCount_cons]
      have := hf.1
      omega
    · have hfalse : (fileBoundaryStep o f).1 = false := Bool.eq_false_iff.mpr hd
      have he : prioLoop o (f :: fs) =
          ((prioLoop o fs).1, (fileBoundaryStep o f).2 :: (prioLoop o fs).2) := by
        simp [prioLoop, hfalse]
      rw [he]
      have heq := hf.2 hfalse
      constructor
      · dsimp only
        rw [filesUploadingCount_cons, filesUploadingCount_cons, heq]
        have := ih.1
        omega
      · intro h
        dsimp only at h ⊢
        rw [filesUploadingCount_cons, filesUploadingCount_cons, heq, ih.2 h]

lemma regLoop_count (o : Opts) : ∀ fs : List FileState,
    filesUploadingCount o (regLoop o fs).2 ≤ filesUploadingCount o fs + 1 ∧
      ((regLoop o fs).1 = false →
        filesUploadingCount o (regLoop o fs).2 = filesUploadingCount o fs) := by
  intro fs
  induction fs with
  | nil => exact ⟨by simp [regLoop], fun _ => by simp [regLoop]⟩
  | cons f fs ih =>
    have hf := fileUpload_count o f
    by_cases hd : (f.upload o).1 = true
    · have he : regLoop o (f :: fs) = (true, (f.upload o).2 :: fs) := by
        simp [regLoop, hd]
      rw [he]
      refine ⟨?_, by simp⟩
      rw [filesUploadingCount_cons, filesUploadingCount_cons]
      have := hf.1
      omega
    · have hfalse : (f.upload o).1 = false := Bool.eq_false_iff.mpr hd
      have he : regLoop o (f :: fs) =
          ((regLoop o fs).1, (f.upload o).2 :: (regLoop o fs).2) := by
        simp [regLoop, hfalse]
      rw [he]
      have heq := hf.2 hfalse
      constructor
      · dsimp only
        rw [filesUploadingCount_cons, filesUploadingCount_cons, heq]
        have := ih.1
        omega
      · intro h
        dsimp only at h ⊢
        rw [filesUploadingCount_cons, filesUploadingCount_cons, heq, ih.2 h]

lemma allSuccessScan_count (o : Opts) : ∀ cs : List Chunk,
    countUploading o (allSuccessScan o cs).2 = countUploading o cs := by
  intro cs
  induction cs with
  | nil => simp [allSuccessScan]
  | cons c cs ih =>
    have hpres : ((c.status o).2.reportedStatus o == Status.uploading) =
        (c.reportedStatus o == Status.uploading) := by
      rw [afterStatus_reported]
    by_cases hd : (c.status o).1 ≠ .success ∨ (c.status o).2.preprocessState = 1
    · have he : allSuccessScan o (c :: cs) = (false, (c.status o).2 :: cs) := by
        simp only [allSuccessScan, if_pos hd]
      rw [he]
      dsimp only
      rw [countUploading_cons, countUploading_cons, hpres]
    · have he : allSuccessScan o (c :: cs) =
          ((allSuccessScan o cs).1, (c.status o).2 :: (allSuccessScan o cs).2) := by
        simp only [allSuccessScan, if_neg hd]
      rw [he]
      dsimp only
      rw [countUploading_cons, countUploading_cons, hpres, ih]

lemma isComplete_count (o : Opts) (f : FileState) :
    countUploading o (f.isComplete o).2.chunks = countUploading o f.chunks := by
  unfold FileState.isComplete
  split
  · dsimp only
  split
  · dsimp only
  · dsimp only
    exact allSuccessScan_count o f.chunks

lemma everyComplete_count (o : Opts) : ∀ fs : List FileState,
    filesUploadingCount o (everyComplete o fs).2 = filesUploadingCount o fs := by
  intro fs
  induction fs with
  | nil => simp [everyComplete]
  | cons f fs ih =>
    have hf := isComplete_count o f
    by_cases hd : (f.isComplete o).1 = true
    · have he : everyComplete o (f :: fs) =
          ((everyComplete o fs).1, (f.isComplete o).2 :: (everyComplete o fs).2) := by
        simp [everyComplete, hd]
      rw [he]
      dsimp only
      rw [filesUploadingCount_cons, filesUploadingCount_cons, hf, ih]
    · have hfalse : (f.isComplete o).1 = false := Bool.eq_false_iff.mpr hd
      have he : everyComplete o (f :: fs) = (false, (f.isComplete o).2 :: fs) := by
        simp [everyComplete, hfalse]
      rw [he]
      dsimp only
      rw [filesUploadingCount_cons, filesUploadingCount_cons, hf]

lemma sweepChunks_count (o : Opts) : ∀ cs : List Chunk,
    countUploading o (sweepChunks o cs).2 ≤ countUploading o cs + 1 ∧
      ((sweepChunks o cs).1 = false →
        countUploading o (sweepChunks o cs).2 = countUploading o cs) := by
  intro cs
  induction cs with
  | nil => exact ⟨by simp [sweepChunks], fun _ => by simp [sweepChunks]⟩
  | cons c cs ih =>
    have hpres : ((c.status o).2.reportedStatus o == Status.uploading) =
        (c.reportedStatus o == Status.uploading) := by
      rw [afterStatus_reported]
    by_cases hd : (c.status o).1 ≠ .success ∧ (c.status o).2.xhr = none
    · have he : sweepChunks o (c :: cs) = (true, (c.status o).2.send o :: cs) := by
        simp only [sweepChunks, if_pos hd]
      rw [he]
      refine ⟨?_, by simp⟩
      dsimp only
      rw [countUploading_cons, countUploading_cons]
      have h1 : (if ((c.status o).2.send o).reportedStatus o == Status.uploading
          then 1 else 0) ≤ 1 := by
        split <;> omega
      omega
    · have he : sweepChunks o (c :: cs) =
          ((sweepChunks o cs).1, (c.status o).2 :: (sweepChunks o cs).2) := by
        simp only [sweepChunks, if_neg hd]
      rw [he]
      constructor
      · dsimp only
        rw [countUploading_cons, countUploading_cons, hpres]
        have := ih.1
        omega
      · intro hfalse
        dsimp only at hfalse ⊢
        rw [countUploading_cons, countUploading_cons, hpres, ih.2 hfalse]

lemma sweepFiles_count (o : Opts) : ∀ fs : List FileState,
    filesUploadingCount o (sweepFiles o fs).2 ≤ filesUploadingCount o fs + 1 := by
  intro fs
  induction fs with
  | nil => simp [sweepFiles]
  | cons f fs ih =>
    by_cases hp : f.isPaused = true
    · have he : sweepFiles o (f :: fs) =
          ((sweepFiles o fs).1, f :: (sweepFiles o fs).2) := by
        simp [sweepFiles, hp]
      rw [he]
      dsimp only
      rw [filesUploadingCount_cons, filesUploadingCount_cons]
      omega
    · have hc := sweepChunks_count o f.chunks
      by_cases hd : (sweepChunks o f.chunks).1 = true
      · have he : sweepFiles o (f :: fs) =
            (true, { f with chunks := (sweepChunks o f.chunks).2 } :: fs) := by
          simp [sweepFiles, hp, hd]
        rw [he]
        dsimp only
        rw [filesUploadingCount_cons, filesUploadingCount_cons]
        dsimp only
        have := hc.1
        omega
      · have hdf : (sweepChunks o f.chunks).1 = false := Bool.eq_false_iff.mpr hd
        have hceq := hc.2 hdf
        have he : sweepFiles o (f :: fs) = ((sweepFiles o fs).1,
            { f with chunks := (sweepChunks o f.chunks).2 } :: (sweepFiles o fs).2) := by
          simp [sweepFiles, hp, hdf]
        rw [he]
        dsimp only
        rw [filesUploadingCount_cons, filesUploadingCount_cons]
        dsimp only
        omega

lemma prioPhase_count (o : Opts) (fs : List FileState) :
    filesUploadingCount o (prioPhase o fs).2 ≤ filesUploadingCount o fs + 1 ∧
      ((prioPhase o fs).1 = false →
        filesUploadingCount o (prioPhase o fs).2 = filesUploadingCount o fs) := by
  unfold prioPhase
  split
  · exact prioLoop_count o fs
  · exact ⟨by dsimp only; omega, fun _ => by dsimp only⟩

lemma uploadNextChunk_count (o : Opts) (s : UpState) :
    UpState.uploadingCount o (uploadNextChunk o s).2.1 ≤
      UpState.uploadingCount o s + 1 := by
  unfold uploadNextChunk UpState.uploadingCount
  split
  · dsimp only; omega
  have hprio := prioPhase_count o s.files
  split
  · dsimp only
    have := hprio.1
    omega
  next hp =>
    have hpf : (prioPhase o s.files).1 = false := Bool.eq_false_iff.mpr hp
    have hpeq := hprio.2 hpf
    have hreg := regLoop_count o (prioPhase o s.files).2
    split
    · dsimp only
      have := hreg.1
      omega
    next hr =>
      have hrf : (regLoop o (prioPhase o s.files).2).1 = false := Bool.eq_false_iff.mpr hr
      have hreq := hreg.2 hrf
      have hcomp := everyComplete_count o (regLoop o (prioPhase o s.files).2).2
      split
      · dsimp only
        omega
      · dsimp only
        have hsw := sweepFiles_count o
          (everyComplete o (regLoop o (prioPhase o s.files).2).2).2
        omega

lemma iterAdvance_count (o : Opts) : ∀ (n : Nat) (s : UpState),
    UpState.uploadingCount o (iterAdvance o n s).1 ≤ UpState.uploadingCount o s + n := by
  intro n
  induction n with
  | zero => intro s; simp [iterAdvance]
  | succ n ih =>
    intro s
    show UpState.uploadingCount o (iterAdvance o n (uploadNextChunk o s).2.1).1 ≤ _
    have h1 := ih (uploadNextChunk o s).2.1
    have h2 := uploadNextChunk_count o s
    omega

/-- C2 (amended): each scheduler advance makes at most one additional
chunk report `uploading`, hence a single `upload()` kick-off adds at most
`simultaneousUploads` uploading chunks over what was already in flight.
The configured limit bounds only what one kick-off adds — it is not a
global invariant (see the counterexample). -/
theorem C2_amended_advance_bound (o : Opts) (s : UpState) :
    UpState.uploadingCount o (uploadNextChunk o s).2.1 ≤
        UpState.uploadingCount o s + 1 ∧
      UpState.uploadingCount o (upload o s).1 ≤
        UpState.uploadingCount o s + o.simultaneousUploads := by
  refine ⟨uploadNextChunk_count o s, ?_⟩
  show UpState.uploadingCount o (iterAdvance o o.simultaneousUploads s).1 ≤ _
  exact iterAdvance_count o o.simultaneousUploads s

/-- C2 (counterexample): with `simultaneousUploads = 3` (the default),
the state reached from a freshly admitted queue by two `upload()`
kick-offs — both public API calls — has 6 chunks simultaneously
reporting `uploading`: the bound of 3 is violated in a reachable state,
because nothing limits dispatches to free slots. -/
theorem C2_concurrency_bound_violated :
    defaultOptions.simultaneousUploads = 3 ∧
      Reach defaultOptions stateC2
        (upload defaultOptions (upload defaultOptions stateC2).1).1 ∧
      UpState.uploadingCount defaultOptions
          (upload defaultOptions (upload defaultOptions stateC2).1).1 = 6 := by
  refine ⟨rfl, Reach.kick (Reach.kick Reach.refl), ?_⟩
  decide

/-! ## Effective paused state (claim C8) -/

/-- C8 (counterexample): the effective paused state consulted by
scheduling is not the OR of the file-level flag with a queue-level pause:
`isPaused()` reads only the file's local flag (the hook implements no
queue-level pause), so with a queue-level pause taken as `true` an
unpaused file would still be reported unpaused. -/
theorem C8_isPaused_not_or_composition :
    ¬ ∀ (queuePaused : Bool) (f : FileState), f.isPaused = (f.pause || queuePaused) := by
  intro h
  have hx := h true fileC8
  simp [FileState.isPaused, fileC8, freshFile] at hx

/-- C8 (amended): the effective paused state consulted by scheduling is
the file-level flag alone — `isPaused()` returns `_pause` and a file
whose flag is set is dispatched from by neither the regular scan nor the
indexed boundary-chunk dispatch; no queue-level pause exists to compose
with. -/
theorem C8_amended_file_local_pause (o : Opts) (f : FileState) (i : Nat) :
    f.isPaused = f.pause ∧
      (f.pause = true → f.upload o = (false, f) ∧ uploadChunkAt o f i = (false, f)) := by
  refine ⟨rfl, fun hp => ⟨?_, ?_⟩⟩
  · unfold FileState.upload
    rw [if_pos (show f.isPaused = true from hp)]
  · unfold uploadChunkAt
    rw [if_pos (show f.isPaused = true from hp)]

/-- Witness for C8 (amended) on a concrete paused file. -/
theorem C8_amended_witness :
    FileState.upload defaultOptions { fileC8 with pause := true } =
        (false, { fileC8 with pause := true }) ∧
      uploadChunkAt defaultOptions { fileC8 with pause := true } 0 =
        (false, { fileC8 with pause := true }) :=
  (C8_amended_file_local_pause defaultOptions { fileC8 with pause := true } 0).2 rfl

/-! ## Boundary-chunk priority (claim C6) -/

/-- C6 (counterexample): with the boundary policy on, an advance over
`[fileC6a, fileC6b]` dispatches the LAST chunk of file 1 (its chunk 1
acquires an in-flight handle) even though file 2's FIRST chunk is
eligible and remains untouched — contradicting "no last chunk is
dispatched while any file's first chunk is still eligible". -/
theorem C6_last_chunk_preempts_eligible_first :
    firstChunkEligible optsC6 fileC6b = true ∧
      fileC6a.chunks.length = 2 ∧
      (uploadNextChunk optsC6 stateC6).1 = true ∧
      ((uploadNextChunk optsC6 stateC6).2.1.files.get? 0).map
          (fun f => f.chunks.map fun c => c.xhr) = some [none, some freshXhr] ∧
      (uploadNextChunk optsC6 stateC6).2.1.files.get? 1 = some fileC6b := by
  refine ⟨by decide, by decide, by decide, by decide, by decide⟩

lemma prioLoop_append (o : Opts) : ∀ (pre : List FileState) (f : FileState)
    (rest : List FileState),
    (∀ g ∈ pre, (fileBoundaryStep o g).1 = false) →
    (fileBoundaryStep o f).1 = true →
    prioLoop o (pre ++ f :: rest) =
      (true, pre.map (fun g => (fileBoundaryStep o g).2) ++
        (fileBoundaryStep o f).2 :: rest) := by
  intro pre
  induction pre with
  | nil =>
    intro f rest _ hf
    simp [prioLoop, hf]
  | cons g pre ih =>
    intro f rest hpre hf
    have hg : (fileBoundaryStep o g).1 = false := hpre g (List.mem_cons_self g pre)
    have hrec := ih f rest (fun g' hg' => hpre g' (List.mem_cons_of_mem g hg')) hf
    show prioLoop o (g :: (pre ++ f :: rest)) = _
    simp [prioLoop, hg, hrec]

/-- C6 (amended): with the policy on, the scan walks the files in
admission order and, for each file, tries that file's first chunk and
then that same file's last chunk before moving to the next file: the
first file whose boundary step dispatches wins, files before it are left
undispatahed and files after it untouched; within a single file the first
chunk is preferred over the last (when the first-chunk dispatch fires,
the boundary step is exactly that dispatch).  A later file's eligible
first chunk does not preempt an earlier file's last chunk. -/
theorem C6_amended_per_file_boundary_order (o : Opts) (pre : List FileState)
    (f : FileState) (rest : List FileState)
    (hprio : o.prioritizeFirstAndLastChunk = true)
    (hpre : ∀ g ∈ pre, (fileBoundaryStep o g).1 = false)
    (hf : (fileBoundaryStep o f).1 = true) :
    uploadNextChunk o ⟨pre ++ f :: rest⟩ =
      (true, ⟨pre.map (fun g => (fileBoundaryStep o g).2) ++
        (fileBoundaryStep o f).2 :: rest⟩, []) ∧
      ∀ g : FileState, (uploadChunkAt o g 0).1 = true →
        fileBoundaryStep o g = uploadChunkAt o g 0 := by
  constructor
  · have hploop := prioLoop_append o pre f rest hpre hf
    unfold uploadNextChunk prioPhase
    simp [hprio, hploop]
  · intro g hg
    unfold fileBoundaryStep
    rw [if_pos hg]

/-- Witness for C6 (amended) on a concrete two-file queue. -/
theorem C6_amended_witness :
    uploadNextChunk optsC6 ⟨[fileC6pre, fileC6b]⟩ =
      (true, ⟨List.map (fun g => (fileBoundaryStep optsC6 g).2) [fileC6pre] ++
        (fileBoundaryStep optsC6 fileC6b).2 :: []⟩, []) :=
  (C6_amended_per_file_boundary_order optsC6 [fileC6pre] fileC6b []
    rfl (by decide) (by decide)).1

/-! ## The queue-wide complete notification (claim C7) -/

/-- C7 (counterexample): an advance over the completed queue `stateC7`
fires `complete`, and a second advance over the resulting state fires
`complete` AGAIN — the notification is not one-time. -/
theorem C7_complete_fired_again :
    (uploadNextChunk defaultOptions stateC7).2.2 = [QueueEvent.completeEvt] ∧
      (uploadNextChunk defaultOptions
          (uploadNextChunk defaultOptions stateC7).2.1).2.2 =
        [QueueEvent.completeEvt] := by
  exact ⟨by decide, by decide⟩

lemma status_of_success (o : Opts) (c : Chunk) (h : c.reportedStatus o = .success) :
    c.status o = (.success, c) := by
  unfold Chunk.reportedStatus at h
  unfold Chunk.status at h ⊢
  by_cases hpr : c.pendingRetry
  · simp [hpr] at h
  by_cases hmc : c.markComplete
  · simp [hpr, hmc]
  cases hx : c.xhr with
  | none =>
    rw [hx] at h
    simp [hpr, hmc] at h
  | some x =>
    rw [hx] at h
    by_cases h4 : x.readyState < 4
    · simp [hpr, hmc, h4] at h
    by_cases hs : x.httpStatus = 200 ∨ x.httpStatus = 201
    · simp [hpr, hmc, h4, hs]
    by_cases hp2 : x.httpStatus ∈ o.permanentErrors ∨ o.maxChunkRetries ≤ c.retries
    · simp [hpr, hmc, h4, hs, hp2] at h
    · simp [hpr, hmc, h4, hs, hp2] at h

lemma list_set_self {α : Type} : ∀ (l : List α) (i : Nat) (c : α),
    l.get? i = some c → l.set i c = l := by
  intro l
  induction l with
  | nil => intro i c h; simp at h
  | cons a l ih =>
    intro i c h
    cases i with
    | zero =>
      simp only [List.get?_cons_zero, Option.some.injEq] at h
      subst h
      rfl
    | succ i =>
      simp only [List.get?_cons_succ] at h
      show a :: l.set i c = a :: l
      rw [ih i c h]

lemma scanSend_allSuccess (o : Opts) : ∀ cs : List Chunk,
    (∀ c ∈ cs, c.reportedStatus o = .success) → scanSend o cs = (false, cs) := by
  intro cs
  induction cs with
  | nil => intro _; rfl
  | cons c cs ih =>
    intro h
    have hc := status_of_success o c (h c (List.mem_cons_self c cs))
    have hrec := ih fun c' hc' => h c' (List.mem_cons_of_mem c hc')
    simp [scanSend, hc, hrec]

lemma uploadChunkAt_allSuccess (o : Opts) (f : FileState) (i : Nat)
    (h : ∀ c ∈ f.chunks, c.reportedStatus o = .success) :
    uploadChunkAt o f i = (false, f) := by
  unfold uploadChunkAt
  split
  · rfl
  cases hg : f.chunks.get? i with
  | none => rfl
  | some c =>
    have hmem : c ∈ f.chunks := List.get?_mem hg
    have hc := status_of_success o c (h c hmem)
    dsimp only
    rw [hc]
    have hcond : ¬(((Status.success, c) : Status × Chunk).1 = .pending ∧
        ((Status.success, c) : Status × Chunk).2.preprocessState = 0) := by
      simp
    rw [if_neg hcond]
    dsimp only
    rw [list_set_self f.chunks i c hg]

lemma fileBoundaryStep_allSuccess (o : Opts) (f : FileState)
    (h : ∀ c ∈ f.chunks, c.reportedStatus o = .success) :
    fileBoundaryStep o f = (false, f) := by
  unfold fileBoundaryStep
  rw [uploadChunkAt_allSuccess o f 0 h]
  dsimp only
  rw [if_neg (by simp)]
  split
  · exact uploadChunkAt_allSuccess o f _ h
  · rfl

lemma prioLoop_allSuccess (o : Opts) : ∀ fs : List FileState,
    (∀ f ∈ fs, ∀ c ∈ f.chunks, c.reportedStatus o = .success) →
    prioLoop o fs = (false, fs) := by
  intro fs
  induction fs with
  | nil => intro _; rfl
  | cons f fs ih =>
    intro h
    have hf := fileBoundaryStep_allSuccess o f (h f (List.mem_cons_self f fs))
    have hrec := ih fun f' hf' => h f' (List.mem_cons_of_mem f hf')
    simp [prioLoop, hf, hrec]

lemma fileUpload_allSuccess (o : Opts) (f : FileState)
    (hpf : o.preprocessFileConfigured = false)
    (h : ∀ c ∈ f.chunks, c.reportedStatus o = .success) :
    f.upload o = (false, f) := by
  unfold FileState.upload
  split
  · rfl
  · rw [if_neg (by simp [hpf]), if_neg (by simp [hpf]),
      scanSend_allSuccess o f.chunks h]

lemma regLoop_allSuccess (o : Opts) : ∀ fs : List FileState,
    o.preprocessFileConfigured = false →
    (∀ f ∈ fs, ∀ c ∈ f.chunks, c.reportedStatus o = .success) →
    regLoop o fs = (false, fs) := by
  intro fs
  induction fs with
  | nil => intro _ _; rfl
  | cons f fs ih =>
    intro hpf h
    have hf := fileUpload_allSuccess o f hpf (h f (List.mem_cons_self f fs))
    have hrec := ih hpf fun f' hf' => h f' (List.mem_cons_of_mem f hf')
    simp [regLoop, hf, hrec]

lemma allSuccessScan_allSuccess (o : Opts) : ∀ cs : List Chunk,
    (∀ c ∈ cs, c.reportedStatus o = .success ∧ c.preprocessState ≠ 1) →
    allSuccessScan o cs = (true, cs) := by
  intro cs
  induction cs with
  | nil => intro _; rfl
  | cons c cs ih =>
    intro h
    have hc := status_of_success o c (h c (List.mem_cons_self c cs)).1
    have hps := (h c (List.mem_cons_self c cs)).2
    have hrec := ih fun c' hc' => h c' (List.mem_cons_of_mem c hc')
    simp [allSuccessScan, hc, hps, hrec]

lemma isComplete_allSuccess (o : Opts) (f : FileState) (h : FileAllSuccess o f) :
    f.isComplete o = (true, f) := by
  obtain ⟨h1, h2, h3⟩ := h
  unfold FileState.isComplete
  rw [if_neg h1, if_neg (by simpa [List.isEmpty_iff] using h2),
    allSuccessScan_allSuccess o f.chunks h3]

lemma everyComplete_allSuccess (o : Opts) : ∀ fs : List FileState,
    (∀ f ∈ fs, FileAllSuccess o f) → everyComplete o fs = (true, fs) := by
  intro fs
  induction fs with
  | nil => intro _; rfl
  | cons f fs ih =>
    intro h
    have hf := isComplete_allSuccess o f (h f (List.mem_cons_self f fs))
    have hrec := ih fun f' hf' => h f' (List.mem_cons_of_mem f hf')
    simp [everyComplete, hf, hrec]

/-- C7 (amended): `complete` is fired on EVERY advance that runs over a
fully completed queue (no pre-upload hook configured): the advance
dispatches nothing, emits `complete` and leaves the state unchanged — so
each further advance over the same completed queue emits `complete`
again; the notification is not deduplicated. -/
theorem C7_amended_complete_refires (o : Opts) (s : UpState)
    (hpf : o.preprocessFileConfigured = false) (hne : s.files ≠ [])
    (hc : ∀ f ∈ s.files, FileAllSuccess o f) :
    uploadNextChunk o s = (false, s, [QueueEvent.completeEvt]) := by
  have hall : ∀ f ∈ s.files, ∀ c ∈ f.chunks, c.reportedStatus o = .success :=
    fun f hf c hcc => ((hc f hf).2.2 c hcc).1
  have hprio : prioPhase o s.files = (false, s.files) := by
    unfold prioPhase
    split
    · exact prioLoop_allSuccess o s.files hall
    · rfl
  have hreg := regLoop_allSuccess o s.files hpf hall
  have hcomp := everyComplete_allSuccess o s.files hc
  unfold uploadNextChunk
  rw [if_neg (by simpa [List.isEmpty_iff] using hne), hprio]
  dsimp only
  rw [hreg]
  dsimp only
  rw [hcomp]
  rfl

/-- Witness for C7 (amended) at the concrete completed queue. -/
theorem C7_amended_witness :
    uploadNextChunk defaultOptions stateC7 =
      (false, stateC7, [QueueEvent.completeEvt]) :=
  C7_amended_complete_refires defaultOptions stateC7 rfl (by decide) (by decide)

/-! ## Admission: identifiers, validation, appendFilesFromFileList
(claims C9, C10) -/

/-- C9 (counterexample): ceiling exactly 1, exactly one tracked file
(`5-a`), exactly one new item — whose identifier equals the tracked one.
The special case silently removes the tracked file, but the new item is
then skipped as a duplicate against the stale tracked-list snapshot: it
is NOT admitted and the queue ends up empty, contradicting "admission
silently removes the tracked file and admits the new one". -/
theorem C9_replacement_drops_duplicate :
    (appendFilesFromFileList admOptsC9 ["5-a"] [fileC9dup]).replacedExisting = true ∧
      (appendFilesFromFileList admOptsC9 ["5-a"] [fileC9dup]).admitted = [] ∧
      (appendFilesFromFileList admOptsC9 ["5-a"] [fileC9dup]).tracked = [] ∧
      AdmEvent.maxFilesErrorEvt ∉
        (appendFilesFromFileList admOptsC9 ["5-a"] [fileC9dup]).events := by
  refine ⟨by decide, by decide, by decide, by decide⟩

/-- C9 (amended): when the ceiling is exactly 1, one file is tracked and
one item arrives, the tracked file is silently removed and the item is
processed normally — admitted when it passes validation and its
identifier differs from the (still snapshotted) tracked one, with no
max-files rejection; a same-identifier item is instead skipped as a
duplicate, leaving the queue empty (see the counterexample).  In every
other case where the ceiling would be exceeded, the configured max-files
rejection callback is invoked and no file of the batch is admitted. -/
theorem C9_amended_maxfiles_gate (o : AdmOpts) (tid : String) (f : InFile)
    (tracked : List String) (fileList : List InFile) :
    ((o.maxFiles = some 1 ∧ validateFileType f.name f.mimeType o.fileType = true ∧
        o.minFileSize = none ∧ o.maxFileSize = none ∧
        generateUniqueIdentifier f ≠ tid) →
      (appendFilesFromFileList o [tid] [f]).replacedExisting = true ∧
        (appendFilesFromFileList o [tid] [f]).admitted = [generateUniqueIdentifier f] ∧
        AdmEvent.maxFilesErrorEvt ∉ (appendFilesFromFileList o [tid] [f]).events ∧
        (appendFilesFromFileList o [tid] [f]).tracked = [generateUniqueIdentifier f]) ∧
    ((maxFilesExceeded o fileList.length tracked.length = true ∧
        ¬(o.maxFiles = some 1 ∧ tracked.length = 1 ∧ fileList.length = 1) ∧
        o.hasMaxFilesErrorCallback = true) →
      appendFilesFromFileList o tracked fileList =
        { ok := false, replacedExisting := false, admitted := [], skippedDup := []
          events := [AdmEvent.maxFilesErrorEvt], tracked := tracked }) := by
  constructor
  · rintro ⟨hmf, hvt, hmin, hmax, hne⟩
    have hloop : admitLoop o [tid] [f] =
        ([generateUniqueIdentifier f], [],
          [AdmEvent.fileAddedEvt (generateUniqueIdentifier f)]) := by
      simp [admitLoop, hvt, minSizeReject, maxSizeReject, hmin, hmax, hne]
    have hexc : maxFilesExceeded o ([f] : List InFile).length
        ([tid] : List String).length = true := by
      simp [maxFilesExceeded, hmf]
    unfold appendFilesFromFileList
    rw [hexc, if_pos rfl, if_pos ⟨hmf, rfl, rfl⟩]
    simp [admitFinish, hloop]
  · rintro ⟨hexc, hnspec, hcb⟩
    unfold appendFilesFromFileList
    rw [hexc, if_pos rfl, if_neg hnspec, hcb]
    simp

/-- Witness for C9 (amended): the replacement path admits the fresh
file, and a non-special overflow (two tracked files) rejects the batch
through the callback. -/
theorem C9_amended_witness :
    (appendFilesFromFileList admOptsC9 ["5-a"] [fileC9new]).admitted =
        [generateUniqueIdentifier fileC9new] ∧
      appendFilesFromFileList admOptsC9 ["5-a", "5-b"] [fileC9new] =
        { ok := false, replacedExisting := false, admitted := [], skippedDup := []
          events := [AdmEvent.maxFilesErrorEvt], tracked := ["5-a", "5-b"] } := by
  have h := C9_amended_maxfiles_gate admOptsC9 "5-a" fileC9new ["5-a", "5-b"] [fileC9new]
  exact ⟨(h.1 ⟨rfl, by decide, rfl, rfl, by decide⟩).2.1, h.2 ⟨by decide, by decide, rfl⟩⟩

/-- C10: two files of equal size whose effective relative paths agree
once every character outside `[0-9a-zA-Z_-]` is deleted get the same
default identifier; admitting the second while the first is tracked
(default limits: no ceiling, no size bounds, no type list) silently skips
it as a duplicate — nothing is admitted, no error callback fires (only
the informational `filesAdded`), and the tracked list is unchanged. -/
theorem C10_duplicate_identifier_skipped (o : AdmOpts) (f1 f2 : InFile)
    (tracked : List String)
    (hsize : f1.size = f2.size)
    (hpath : sanitizePath (effectiveRelativePath f1) =
      sanitizePath (effectiveRelativePath f2))
    (hmem : generateUniqueIdentifier f1 ∈ tracked)
    (hft : o.fileType = []) (hmf : o.maxFiles = none)
    (hmin : o.minFileSize = none) (hmax : o.maxFileSize = none) :
    generateUniqueIdentifier f1 = generateUniqueIdentifier f2 ∧
      (appendFilesFromFileList o tracked [f2]).admitted = [] ∧
      (appendFilesFromFileList o tracked [f2]).skippedDup = [f2] ∧
      (appendFilesFromFileList o tracked [f2]).events = [AdmEvent.filesAddedEvt] ∧
      (appendFilesFromFileList o tracked [f2]).tracked = tracked := by
  have hgid : generateUniqueIdentifier f1 = generateUniqueIdentifier f2 := by
    unfold generateUniqueIdentifier
    rw [hsize, hpath]
  have hvt : validateFileType f2.name f2.mimeType o.fileType = true := by
    rw [hft]
    rfl
  have hmem2 : generateUniqueIdentifier f2 ∈ tracked := hgid ▸ hmem
  have hloop : admitLoop o tracked [f2] = ([], [f2], []) := by
    simp [admitLoop, hvt, minSizeReject, maxSizeReject, hmin, hmax, hmem2]
  have hexc : maxFilesExceeded o 1 tracked.length = false := by
    simp [maxFilesExceeded, hmf]
  refine ⟨hgid, ?_, ?_, ?_, ?_⟩ <;>
    simp [appendFilesFromFileList, hexc, admitFinish, hloop]

/-- Witness for C10 on the two concrete colliding files. -/
theorem C10_duplicate_identifier_witness :
    generateUniqueIdentifier fileC10a = generateUniqueIdentifier fileC10b ∧
      (appendFilesFromFileList admOptsC10 ["5-abtxt"] [fileC10b]).admitted = [] ∧
      (appendFilesFromFileList admOptsC10 ["5-abtxt"] [fileC10b]).events =
        [AdmEvent.filesAddedEvt] := by
  have h := C10_duplicate_identifier_skipped admOptsC10 fileC10a fileC10b ["5-abtxt"]
    (by decide) (by decide) (by decide) rfl rfl rfl rfl
  exact ⟨h.1, h.2.1, h.2.2.2.1⟩

end FileTunnel

